import Mathlib

/-!
# Verification of the `postgres-nullable` data-access layer

Shallow embedding of `src/DatabaseClient.ts`: the parameter binder
(`Parameters`), the predicate compiler (`applyPredicate`), the statement
compilers (`findOneQuery`, `findByIdQuery`, `searchQuery`, `countQuery`,
`saveQuery`, `updateQuery`, `deleteQuery`), the write operations with
their post-write notifications (`save`, `update`, `delete`), and the
stubbed connection pool (`PoolStub`) with its whitespace-normalizing
query matcher (`normalizeQuery`).

JavaScript values that can be bound as SQL parameters are modelled by
the `Value` type; records (plain objects) are modelled as association
lists in key-insertion order, which is the order `Object.keys` /
`Object.values` / `Object.entries` enumerate string keys.
-/

namespace DB

/-- A JavaScript value usable as a bound SQL parameter.  `null` is
distinguished because the `eq` predicate compiles it to `IS NULL`. -/
inductive Value where
  | null : Value
  | str : String → Value
  | int : Int → Value
  | bool : Bool → Value
deriving DecidableEq

/-- A record (plain JS object): fields in key-insertion order. -/
abbrev Record := List (String × Value)

/-- The predicate union from `DatabaseClient.ts` (`Equals`, `In`,
`NotIn`, `ArrayContains`, `TextSearch`).  `In` is a reserved word in
Lean, hence the constructor name `inP`. -/
inductive Predicate where
  | eq (column : String) (value : Value)
  | inP (column : String) (values : List Value)
  | notIn (column : String) (values : List Value)
  | arrayContains (column : String) (value : Value)
  | textSearch (columns : List String) (value : String)
deriving DecidableEq

/-- Sort direction of a `ColumnOrder`. -/
inductive Direction where
  | asc : Direction
  | desc : Direction
deriving DecidableEq

/-- `direction.toUpperCase()` for the two legal direction strings. -/
def Direction.upper : Direction → String
  | .asc => "ASC"
  | .desc => "DESC"

/-- One `ORDER BY` entry. -/
structure ColumnOrder where
  column : String
  direction : Direction
deriving DecidableEq

/-- `SearchSpec`: all four clauses optional (`undefined` = `none`). -/
structure SearchSpec where
  whereList : Option (List Predicate) := none
  order : Option (List ColumnOrder) := none
  offset : Option Int := none
  limit : Option Int := none
deriving DecidableEq

/-- Decimal digit character for `n < 10`. -/
def digitChar (n : Nat) : Char := Char.ofNat (48 + n)

/-- Decimal rendering of a natural number, fuel-based so that it is
structurally recursive (fuel `n + 1` always suffices).  This models the
JavaScript number-to-string conversion used by the template literal
`$${this.parameters.length}` in `Parameters.param`. -/
def natReprAux : Nat → Nat → List Char
  | 0, _ => []
  | fuel + 1, n =>
    if n < 10 then [digitChar n]
    else natReprAux fuel (n / 10) ++ [digitChar (n % 10)]

/-- Decimal rendering of a natural number as a string. -/
def natRepr (n : Nat) : String := String.mk (natReprAux (n + 1) n)

/-- The placeholder token for 1-based parameter position `k`: `$k`. -/
def placeholder (k : Nat) : String := "$" ++ natRepr k

/-- The parameter binder (`class Parameters`): its state is the ordered
list of bound values.  `bindParam` models `param(value)`: push the value
and return the token for its 1-based position. -/
def bindParam (ps : List Value) (v : Value) : String × List Value :=
  (placeholder (ps.length + 1), ps ++ [v])

/-- `Array.prototype.join(sep)` on a list of strings. -/
def joinSep (sep : String) : List String → String
  | [] => ""
  | [s] => s
  | s :: rest => s ++ sep ++ joinSep sep rest

/-- Bind a list of values left to right, returning their placeholder
tokens in order together with the new binder state (models
`values.map((v) => parameters.param(v))`). -/
def bindAll (ps : List Value) : List Value → List String × List Value
  | [] => ([], ps)
  | v :: rest =>
    let p1 := bindParam ps v
    let p2 := bindAll p1.2 rest
    (p1.1 :: p2.1, p2.2)

/-- The predicate compiler `applyPredicate(predicate, parameters)`:
returns the SQL boolean fragment and the new binder state.

In the `textSearch` branch the source binds the `%value%` parameter
before mapping the columns, so the bind happens even for an empty
column list; `conditions[0]!` on an empty array is `undefined` in
JavaScript, rendered here as the string "undefined". -/
def applyPredicate (p : Predicate) (ps : List Value) : String × List Value :=
  match p with
  | .eq column value =>
    if value ≠ Value.null then
      let t := bindParam ps value
      (column ++ " = " ++ t.1, t.2)
    else (column ++ " IS NULL", ps)
  | .inP column values =>
    let t := bindAll ps values
    (column ++ " IN (" ++ joinSep ", " t.1 ++ ")", t.2)
  | .notIn column values =>
    let t := bindAll ps values
    (column ++ " NOT IN (" ++ joinSep ", " t.1 ++ ")", t.2)
  | .arrayContains column value =>
    let t := bindParam ps value
    (t.1 ++ " = ANY(" ++ column ++ ")", t.2)
  | .textSearch columns value =>
    let t := bindParam ps (Value.str ("%" ++ value ++ "%"))
    let conditions := columns.map (fun column => column ++ " ILIKE " ++ t.1)
    (if conditions.length > 1 then "(" ++ joinSep " OR " conditions ++ ")"
     else conditions.headD "undefined", t.2)

/-- Compile a list of predicates left to right through one shared
binder (models `where.map((predicate) => applyPredicate(predicate,
parameters))`). -/
def applyPredicates (ws : List Predicate) (ps : List Value) :
    List String × List Value :=
  match ws with
  | [] => ([], ps)
  | w :: rest =>
    let p1 := applyPredicate w ps
    let p2 := applyPredicates rest p1.2
    (p1.1 :: p2.1, p2.2)

/-- `DatabaseClient.findOneQuery`: `SELECT * FROM t` + optional
`WHERE` + forced literal `LIMIT 1`. -/
def findOneQuery (table : String) (whereList : Option (List Predicate)) :
    String × List Value :=
  let c := applyPredicates (whereList.getD []) []
  let q := "SELECT * FROM " ++ table
  let q := if c.1.length ≠ 0 then q ++ " WHERE " ++ joinSep " AND " c.1 else q
  (q ++ " LIMIT 1", c.2)

/-- `DatabaseClient.findByIdQuery`: `findOneQuery` with an
`id = <id>` equality predicate. -/
def findByIdQuery (table : String) (id : String) : String × List Value :=
  findOneQuery table (some [Predicate.eq "id" (Value.str id)])

/-- `DatabaseClient.searchQuery`: `SELECT * FROM t` + optional `WHERE`
+ optional `ORDER BY` + optional `OFFSET` + optional `LIMIT`, with the
offset and limit bound as parameters (in that order). -/
def searchQuery (table : String) (spec : SearchSpec) : String × List Value :=
  let c := applyPredicates (spec.whereList.getD []) []
  let q := "SELECT * FROM " ++ table
  let q := if c.1.length ≠ 0 then q ++ " WHERE " ++ joinSep " AND " c.1 else q
  let q :=
    match spec.order with
    | some os =>
      if os.length ≠ 0 then
        q ++ " ORDER BY " ++
          joinSep ", " (os.map (fun o => o.column ++ " " ++ o.direction.upper))
      else q
    | none => q
  let po :=
    match spec.offset with
    | some o =>
      let t := bindParam c.2 (Value.int o)
      (q ++ " OFFSET " ++ t.1, t.2)
    | none => (q, c.2)
  match spec.limit with
  | some l =>
    let t := bindParam po.2 (Value.int l)
    (po.1 ++ " LIMIT " ++ t.1, t.2)
  | none => po

/-- `DatabaseClient.countQuery`: `SELECT COUNT(*) AS cnt FROM t` +
optional `WHERE` (the `where` argument defaults to `[]` at call sites,
so it is a plain list here). -/
def countQuery (table : String) (whereList : List Predicate) :
    String × List Value :=
  let c := applyPredicates whereList []
  let q := "SELECT COUNT(*) AS cnt FROM " ++ table
  let q := if c.1.length ≠ 0 then q ++ " WHERE " ++ joinSep " AND " c.1 else q
  (q, c.2)

/-- The statement built by `DatabaseClient.save`: an INSERT whose
column list and value placeholders follow the record's own key order,
followed (after the literal newline and indentation of the source's
template string) by an `ON CONFLICT (id) DO UPDATE SET` clause over
every column. -/
def saveQuery (table : String) (record : Record) : String × List Value :=
  let t := bindAll [] (record.map Prod.snd)
  let columns := record.map Prod.fst
  ("INSERT INTO " ++ table ++ " (" ++ joinSep ", " columns ++ ") VALUES (" ++
      joinSep ", " t.1 ++ ")\n      ON CONFLICT (id) DO UPDATE SET " ++
      joinSep ", " (columns.map (fun col => col ++ " = EXCLUDED." ++ col)),
    t.2)

/-- The SET-clause entries of `update`, sorted by column name: models
`Object.entries(update).sort((a, b) => a[0].localeCompare(b[0]))`
(a stable sort by key; `localeCompare` is modelled as the lexicographic
string order). -/
def sortEntries (u : Record) : Record :=
  List.insertionSort (fun a b => a.1 ≤ b.1) u

/-- Bind the sorted SET entries left to right, producing the
`column = $k` assignment strings (models the `.map(([column, value]) =>
...)` over the sorted entries). -/
def bindAssignments (ps : List Value) : Record → List String × List Value
  | [] => ([], ps)
  | (column, value) :: rest =>
    let t := bindParam ps value
    let p2 := bindAssignments t.2 rest
    ((column ++ " = " ++ t.1) :: p2.1, p2.2)

/-- The statement built by `DatabaseClient.update`.  Note the source
compiles the WHERE predicates (binding their values) before building
the SET clause, so WHERE values occupy the lower placeholder indices
although the WHERE clause appears after SET in the text. -/
def updateQuery (table : String) (whereList : Option (List Predicate))
    (update : Record) : String × List Value :=
  let c := applyPredicates (whereList.getD []) []
  let s := bindAssignments c.2 (sortEntries update)
  let q := "UPDATE " ++ table ++ " SET " ++ joinSep ", " s.1
  let q := if c.1.length ≠ 0 then q ++ " WHERE " ++ joinSep " AND " c.1 else q
  (q, s.2)

/-- The statement built by `DatabaseClient.delete`. -/
def deleteQuery (table : String) (whereList : Option (List Predicate)) :
    String × List Value :=
  let c := applyPredicates (whereList.getD []) []
  let q := "DELETE FROM " ++ table
  let q := if c.1.length ≠ 0 then q ++ " WHERE " ++ joinSep " AND " c.1 else q
  (q, c.2)

/-- One row of a query result. -/
abbrev Row := Record

/-- `QueryResult`: the rows returned by the pool. -/
structure QueryResult where
  rows : List Row
deriving DecidableEq

/-- The connection pool as a function from (query text, parameters) to
either an error or a result. -/
abbrev Pool := String → List Value → Except String QueryResult

/-- The notifications emitted by the write operations. -/
inductive Event where
  | saved (record : Record)
  | updated (whereList : Option (List Predicate)) (update : Record)
  | deleted (whereList : Option (List Predicate))
deriving DecidableEq

/-- `DatabaseClient.save`: compile, execute, and emit `saved` with the
input record exactly when execution succeeded; a failed execute
propagates unchanged and emits nothing. -/
def save (pool : Pool) (table : String) (record : Record) :
    Except String (QueryResult × List Event) :=
  let c := saveQuery table record
  match pool c.1 c.2 with
  | .ok r => .ok (r, [Event.saved record])
  | .error e => .error e

/-- `DatabaseClient.update`: compile, execute, and emit `updated` with
the `{where, update}` pair exactly when execution succeeded. -/
def update (pool : Pool) (table : String)
    (whereList : Option (List Predicate)) (upd : Record) :
    Except String (QueryResult × List Event) :=
  let c := updateQuery table whereList upd
  match pool c.1 c.2 with
  | .ok r => .ok (r, [Event.updated whereList upd])
  | .error e => .error e

/-- `DatabaseClient.delete`: compile, execute, and emit `deleted` with
the `{where}` filter exactly when execution succeeded. -/
def delete (pool : Pool) (table : String)
    (whereList : Option (List Predicate)) :
    Except String (QueryResult × List Event) :=
  let c := deleteQuery table whereList
  match pool c.1 c.2 with
  | .ok r => .ok (r, [Event.deleted whereList])
  | .error e => .error e

/-- Collapse every whitespace run to a single space: models
`query.replace(/\s+/g, " ")`.  The boolean argument records whether the
previous character belonged to a whitespace run. -/
def collapseWSAux : List Char → Bool → List Char
  | [], _ => []
  | c :: rest, inRun =>
    if c.isWhitespace then
      if inRun then collapseWSAux rest true
      else ' ' :: collapseWSAux rest true
    else c :: collapseWSAux rest false

/-- Drop leading and trailing whitespace: models `String.prototype.trim`. -/
def trimWS (l : List Char) : List Char :=
  ((l.dropWhile Char.isWhitespace).reverse.dropWhile Char.isWhitespace).reverse

/-- `normalizeQuery`: collapse whitespace runs to single spaces, then
trim. -/
def normalizeQuery (query : String) : String :=
  String.mk (trimWS (collapseWSAux query.data false))

/-- A registered stub entry: query text, optional parameter list,
canned result. -/
structure StubbedQuery where
  query : String
  params : Option (List Value) := none
  result : QueryResult
deriving DecidableEq

/-- The state of a `PoolStub`: its registry (query texts normalized at
construction, as in the `PoolStub` constructor). -/
structure PoolStub where
  queries : List StubbedQuery

/-- The `PoolStub` constructor: normalize every registered query text. -/
def mkPoolStub (queries : List StubbedQuery) : PoolStub :=
  ⟨queries.map (fun q => { q with query := normalizeQuery q.query })⟩

/-- `PoolStub.query`: normalize the incoming text, return the canned
result of the first registry entry matching on normalized text and
value-wise-equal parameters; with no match, return an empty row set and
warn (the boolean of the returned pair is the `console.warn` flag). -/
def poolStubQuery (stub : PoolStub) (query : String)
    (params : Option (List Value)) : QueryResult × Bool :=
  let normalizedQuery := normalizeQuery query
  match stub.queries.find?
      (fun q => decide (q.query = normalizedQuery ∧ q.params = params)) with
  | some s => (s.result, false)
  | none => (⟨[]⟩, true)

/-- Numeric value of a list of decimal digit characters. -/
def digitsVal (ds : List Char) : Nat :=
  ds.foldl (fun a c => 10 * a + (c.toNat - 48)) 0

/-- State of the placeholder scanner: `none` = plain text,
`some none` = just saw `$` with no digit yet, `some (some n)` = inside
the digits of a placeholder whose value so far is `n`. -/
abbrev ScanState := Option (Option Nat)

/-- Scan a character list for placeholder tokens `$<digits>`, returning
the 1-based indices in left-to-right textual order.  A `$` not followed
by a digit is not a token. -/
def scanPHAux : List Char → ScanState → List Nat
  | [], st =>
    match st with
    | some (some n) => [n]
    | _ => []
  | c :: rest, st =>
    match st with
    | none => scanPHAux rest (if c = '$' then some none else none)
    | some none =>
      if c.isDigit then scanPHAux rest (some (some (c.toNat - 48)))
      else scanPHAux rest (if c = '$' then some none else none)
    | some (some n) =>
      if c.isDigit then scanPHAux rest (some (some (10 * n + (c.toNat - 48))))
      else n :: scanPHAux rest (if c = '$' then some none else none)

/-- Placeholder indices of a character list, in textual order. -/
def scanL (l : List Char) : List Nat := scanPHAux l none

/-- Placeholder indices of a SQL string, in left-to-right textual
order. -/
def scanPH (s : String) : List Nat := scanL s.data

/-- A character list containing no `$` (so it can contribute no
placeholder token). -/
def cleanL (l : List Char) : Bool := l.all (fun c => c ≠ '$')

/-- A string containing no `$` character: identifiers (table and column
names) are assumed clean so that they cannot fake placeholder tokens. -/
def clean (s : String) : Bool := cleanL s.data

/-- All column names of a predicate are clean. -/
def cleanPred : Predicate → Bool
  | .eq column _ => clean column
  | .inP column _ => clean column
  | .notIn column _ => clean column
  | .arrayContains column _ => clean column
  | .textSearch columns _ => columns.all clean

/-- All column names of a predicate list are clean. -/
def cleanPreds (ws : List Predicate) : Bool := ws.all cleanPred

/-- All column names of an optional predicate list are clean. -/
def cleanWhere (w : Option (List Predicate)) : Bool := cleanPreds (w.getD [])

/-- All column names of a search specification are clean. -/
def cleanSpec (spec : SearchSpec) : Bool :=
  cleanWhere spec.whereList &&
    (spec.order.getD []).all (fun o => clean o.column)

/-- All keys of a record are clean. -/
def cleanRecord (r : Record) : Bool := r.all (fun e => clean e.1)

/-- The scanned indices `l` form a "stair" over the half-open interval
`(a, b]`: weakly increasing left to right, every index in the
interval. -/
def Stair (l : List Nat) (a b : Nat) : Prop :=
  List.Chain' (fun x y => x ≤ y) l ∧ ∀ i ∈ l, a < i ∧ i ≤ b

/-- A compiled statement's placeholders are well formed in the sense of
the spec's invariant: each token's index addresses exactly one entry of
the parameter list (it lies within `[1, params.length]`), and reading
the text left to right the indices occur in bind order (weakly
increasing, since a bound placeholder may be reused). -/
def PhOrdered (qp : String × List Value) : Prop :=
  List.Chain' (fun x y => x ≤ y) (scanPH qp.1) ∧
    ∀ i ∈ scanPH qp.1, 1 ≤ i ∧ i ≤ qp.2.length

/-- Whether the claim's condition for including a WHERE clause holds:
the where list is present and non-empty. -/
def whereIncluded (spec : SearchSpec) : Bool :=
  match spec.whereList with
  | some l => !l.isEmpty
  | none => false

/-- Whether the claim's condition for including an ORDER BY clause
holds: the order list is present and non-empty. -/
def orderIncluded (spec : SearchSpec) : Bool :=
  match spec.order with
  | some l => !l.isEmpty
  | none => false

/-- Modelled from the claim's words (refinement reference for the
clause-inclusion conditions of `searchQuery`): WHERE iff the where list
is present and non-empty; ORDER BY iff the order list is present and
non-empty; OFFSET iff offset is defined and LIMIT iff limit is defined,
each binding its (possibly zero) value as a placeholder. -/
def searchQuerySpec (table : String) (spec : SearchSpec) :
    String × List Value :=
  let c := applyPredicates (spec.whereList.getD []) []
  let q := "SELECT * FROM " ++ table
  let q := if whereIncluded spec then q ++ " WHERE " ++ joinSep " AND " c.1 else q
  let q :=
    if orderIncluded spec then
      q ++ " ORDER BY " ++
        joinSep ", "
          ((spec.order.getD []).map (fun o => o.column ++ " " ++ o.direction.upper))
    else q
  let po :=
    match spec.offset with
    | some o =>
      let t := bindParam c.2 (Value.int o)
      (q ++ " OFFSET " ++ t.1, t.2)
    | none => (q, c.2)
  match spec.limit with
  | some l =>
    let t := bindParam po.2 (Value.int l)
    (po.1 ++ " LIMIT " ++ t.1, t.2)
  | none => po

/-- A pool that always succeeds with an empty result. -/
def okPool : Pool := fun _ _ => .ok ⟨[]⟩

/-- A pool that always fails with a fixed error. -/
def errPool : Pool := fun _ _ => .error "connection lost"

/-- The values a single predicate compilation appends to the binder. -/
def boundValues : Predicate → List Value
  | .eq _ v => if v ≠ Value.null then [v] else []
  | .inP _ vs => vs
  | .notIn _ vs => vs
  | .arrayContains _ v => [v]
  | .textSearch _ v => [Value.str ("%" ++ v ++ "%")]

/-- The values a predicate-list compilation appends to the binder. -/
def boundValuesList (ws : List Predicate) : List Value :=
  (ws.map boundValues).flatten

/-- Whether a predicate is anything other than a `textSearch` with an
empty column list (the degenerate shape whose fragment is the JS
`undefined`). -/
def notEmptyTextSearch : Predicate → Bool
  | .textSearch [] _ => false
  | _ => true

/-! ## General lemmas about the binder and the compilers -/

/-- Binding a list of values appends them in order and returns the
consecutive placeholder tokens starting right after the current binder
length. -/
theorem bindAll_spec (vs : List Value) (ps : List Value) :
    bindAll ps vs =
      ((List.range' (ps.length + 1) vs.length).map placeholder, ps ++ vs) := by
  induction vs generalizing ps with
  | nil => simp [bindAll]
  | cons v rest ih =>
    simp [bindAll, bindParam, ih, List.range'_succ]

/-- Compiling a predicate list produces one fragment per predicate. -/
theorem applyPredicates_length (ws : List Predicate) (ps : List Value) :
    (applyPredicates ws ps).1.length = ws.length := by
  induction ws generalizing ps with
  | nil => rfl
  | cons w rest ih => simp [applyPredicates, ih]

/-! ## Claim theorems -/

/-- C4: compiling `Equals(col, null)` yields `col IS NULL` and appends
nothing to the parameter list; compiling `Equals(col, v)` for non-null
`v` yields `col = $k` where `$k` is the placeholder returned by binding
exactly `v` (one new parameter-list entry holding `v`). -/
theorem eq_null_is_null_eq_value_binds (column : String) (v : Value)
    (ps : List Value) :
    applyPredicate (Predicate.eq column v) ps =
      if v = Value.null then (column ++ " IS NULL", ps)
      else (column ++ " = " ++ placeholder (ps.length + 1), ps ++ [v]) := by
  by_cases h : v = Value.null <;> simp [applyPredicate, bindParam, h]

/-- C7: compiling `In(col, [])` yields `col IN ()` with no parameters
bound, `NotIn(col, [])` yields `col NOT IN ()` likewise, and
`search("t", {where: [In("status", [])]})` compiles to a statement
whose WHERE clause is `status IN ()` — empty lists are not
special-cased into omission. -/
theorem empty_in_list_compiles_to_empty_parens (column : String)
    (ps : List Value) :
    applyPredicate (Predicate.inP column []) ps = (column ++ " IN ()", ps) ∧
    applyPredicate (Predicate.notIn column []) ps =
      (column ++ " NOT IN ()", ps) ∧
    searchQuery "t" { whereList := some [Predicate.inP "status" []] } =
      ("SELECT * FROM t WHERE status IN ()", []) := by
  refine ⟨?_, ?_, by decide⟩ <;>
    simp [applyPredicate, bindAll, joinSep, String.append_assoc]

/-- C3: for a non-empty column list, compiling `TextSearch(cols, v)`
binds exactly one value `%v%` and produces one `col ILIKE $k` branch
per column, all sharing the single placeholder index `k`
(= the next binder position), OR-joined and parenthesized exactly when
there is more than one column. -/
theorem textSearch_single_shared_placeholder (columns : List String)
    (v : String) (ps : List Value) (h : columns ≠ []) :
    applyPredicate (Predicate.textSearch columns v) ps =
      ((if columns.length > 1 then
          "(" ++
            joinSep " OR "
              (columns.map
                (fun c => c ++ " ILIKE " ++ placeholder (ps.length + 1))) ++
            ")"
        else columns.headD "" ++ " ILIKE " ++ placeholder (ps.length + 1)),
       ps ++ [Value.str ("%" ++ v ++ "%")]) := by
  match columns with
  | [] => exact absurd rfl h
  | c :: cs => cases cs <;> simp [applyPredicate, bindParam]

/-- Witness for C3 at the spec's example `TextSearch(["a","b"], "x")`
with an empty binder: the fragment is `(a ILIKE $1 OR b ILIKE $1)` and
the single bound value is `%x%`. -/
theorem textSearch_single_shared_placeholder_witness :
    applyPredicate (Predicate.textSearch ["a", "b"] "x") [] =
      ("(a ILIKE $1 OR b ILIKE $1)", [Value.str "%x%"]) :=
  (textSearch_single_shared_placeholder ["a", "b"] "x" [] (by decide)).trans
    (by decide)

/-- C6: `save` compiles an INSERT whose column list reproduces the
record's own key order verbatim, whose VALUES list binds one
placeholder per column in the same order (`$1 … $n`), and which always
ends with an `ON CONFLICT (id) DO UPDATE SET col = EXCLUDED.col` clause
containing one assignment per column of the record. -/
theorem save_upsert_column_order (table : String) (record : Record) :
    saveQuery table record =
      ("INSERT INTO " ++ table ++ " (" ++
         joinSep ", " (record.map Prod.fst) ++ ") VALUES (" ++
         joinSep ", " ((List.range' 1 record.length).map placeholder) ++
         ")\n      ON CONFLICT (id) DO UPDATE SET " ++
         joinSep ", "
           ((record.map Prod.fst).map (fun col => col ++ " = EXCLUDED." ++ col)),
       record.map Prod.snd) := by
  simp [saveQuery, bindAll_spec]

/-- C2: an incoming execute call on the stub pool normalizes the
incoming SQL (whitespace runs collapsed to single spaces, then trimmed)
and returns the canned result of the first registry entry — in
registration order — whose normalized query text equals the normalized
incoming text and whose parameter list is value-wise equal; with no
match it returns an empty row set and warns (second component `true`)
rather than throwing. -/
theorem stub_first_match_or_soft_empty (registry : List StubbedQuery)
    (query : String) (params : Option (List Value)) :
    poolStubQuery (mkPoolStub registry) query params =
      (registry.find?
          (fun e =>
            decide (normalizeQuery e.query = normalizeQuery query ∧
              e.params = params))).elim
        (⟨[]⟩, true) (fun e => (e.result, false)) := by
  induction registry with
  | nil => rfl
  | cons e rest ih =>
    by_cases h : normalizeQuery e.query = normalizeQuery query ∧
        e.params = params
    · simp [poolStubQuery, mkPoolStub, List.find?_cons, h]
    · simp only [poolStubQuery, mkPoolStub, List.map_cons,
        List.find?_cons] at ih ⊢
      have he :
          decide ((normalizeQuery e.query = normalizeQuery query ∧
            e.params = params)) = false := by
        simpa using h
      simpa [he] using ih

/-- C9: each write operation emits its notification (`saved` with the
input record, `updated` with the `{where, update}` pair, `deleted` with
the `{where}` filter) exactly when the pool's execute succeeds, and a
failed execute propagates its error unchanged with nothing emitted. -/
theorem write_ops_emit_iff_execute_succeeds (pool : Pool) (table : String)
    (record : Record) (whereList : Option (List Predicate)) (upd : Record) :
    (∀ e, pool (saveQuery table record).1 (saveQuery table record).2 =
        .error e → save pool table record = .error e) ∧
    (∀ r, pool (saveQuery table record).1 (saveQuery table record).2 =
        .ok r → save pool table record = .ok (r, [Event.saved record])) ∧
    (∀ e, pool (updateQuery table whereList upd).1
        (updateQuery table whereList upd).2 = .error e →
      update pool table whereList upd = .error e) ∧
    (∀ r, pool (updateQuery table whereList upd).1
        (updateQuery table whereList upd).2 = .ok r →
      update pool table whereList upd =
        .ok (r, [Event.updated whereList upd])) ∧
    (∀ e, pool (deleteQuery table whereList).1
        (deleteQuery table whereList).2 = .error e →
      delete pool table whereList = .error e) ∧
    (∀ r, pool (deleteQuery table whereList).1
        (deleteQuery table whereList).2 = .ok r →
      delete pool table whereList = .ok (r, [Event.deleted whereList])) := by
  refine ⟨fun e h => ?_, fun r h => ?_, fun e h => ?_, fun r h => ?_,
    fun e h => ?_, fun r h => ?_⟩ <;>
    simp [save, update, delete, h]

/-- Witness for C9: with the always-failing pool the error propagates
and with the always-succeeding pool each operation emits exactly its
notification. -/
theorem write_ops_emit_iff_execute_succeeds_witness :
    save errPool "t" [("id", Value.str "1")] = .error "connection lost" ∧
    save okPool "t" [("id", Value.str "1")] =
      .ok (⟨[]⟩, [Event.saved [("id", Value.str "1")]]) ∧
    update okPool "t" none [("a", Value.int 1)] =
      .ok (⟨[]⟩, [Event.updated none [("a", Value.int 1)]]) ∧
    delete errPool "t" none = .error "connection lost" :=
  ⟨(write_ops_emit_iff_execute_succeeds errPool "t" [("id", Value.str "1")]
      none []).1 "connection lost" rfl,
   (write_ops_emit_iff_execute_succeeds okPool "t" [("id", Value.str "1")]
      none []).2.1 ⟨[]⟩ rfl,
   (write_ops_emit_iff_execute_succeeds okPool "t" []
      none [("a", Value.int 1)]).2.2.2.1 ⟨[]⟩ rfl,
   (write_ops_emit_iff_execute_succeeds errPool "t" []
      none []).2.2.2.2.1 "connection lost" rfl⟩

/-- C10: every optional clause of the compiled SELECT is included
exactly under the claim's conditions — WHERE iff the where list is
present and non-empty, ORDER BY iff the order list is present and
non-empty (empty behaves as absent), OFFSET iff offset is defined and
LIMIT iff limit is defined, each binding its value (including 0) as a
placeholder: `searchQuery` coincides with the clause-condition
reference `searchQuerySpec` on every input. -/
theorem search_clause_inclusion_conditions (table : String)
    (spec : SearchSpec) :
    searchQuery table spec = searchQuerySpec table spec := by
  rcases spec with ⟨w, o, off, lim⟩
  rcases w with _ | (_ | ⟨p, l⟩) <;> rcases o with _ | (_ | ⟨c, os⟩) <;>
    simp [searchQuery, searchQuerySpec, whereIncluded, orderIncluded,
      applyPredicates_length]

/-- The sorted SET entries are sorted by key, and any two permutations
of an update map with distinct keys sort to the same entry list. -/
theorem sortEntries_sorted_and_perm_invariant (u1 u2 : Record)
    (hp : u1.Perm u2) (hn : (u1.map Prod.fst).Nodup) :
    List.Sorted (fun a b : String × Value => a.1 ≤ b.1) (sortEntries u1) ∧
      sortEntries u1 = sortEntries u2 := by
  haveI ht : IsTotal (String × Value) (fun a b => a.1 ≤ b.1) :=
    ⟨fun a b => le_total a.1 b.1⟩
  haveI htr : IsTrans (String × Value) (fun a b => a.1 ≤ b.1) :=
    ⟨fun _ _ _ h1 h2 => le_trans h1 h2⟩
  have hs1 := List.sorted_insertionSort (fun a b : String × Value => a.1 ≤ b.1) u1
  have hs2 := List.sorted_insertionSort (fun a b : String × Value => a.1 ≤ b.1) u2
  refine ⟨hs1, ?_⟩
  have hperm : (sortEntries u1).Perm (sortEntries u2) :=
    ((List.perm_insertionSort _ u1).trans hp).trans
      (List.perm_insertionSort _ u2).symm
  have hkeys1 : List.Pairwise (fun a b : String × Value => a.1 ≠ b.1)
      (sortEntries u1) := by
    have : ((sortEntries u1).map Prod.fst).Nodup := by
      have hm : ((sortEntries u1).map Prod.fst).Perm (u1.map Prod.fst) :=
        (List.perm_insertionSort _ u1).map Prod.fst
      exact hm.nodup_iff.mpr hn
    exact (List.pairwise_map.mp this)
  have hkeys2 : List.Pairwise (fun a b : String × Value => a.1 ≠ b.1)
      (sortEntries u2) := by
    have : ((sortEntries u2).map Prod.fst).Nodup := by
      have hm : ((sortEntries u2).map Prod.fst).Perm (u2.map Prod.fst) :=
        (List.perm_insertionSort _ u2).map Prod.fst
      exact hm.nodup_iff.mpr ((hp.map Prod.fst).nodup_iff.mp hn)
    exact (List.pairwise_map.mp this)
  haveI : IsAntisymm (String × Value) (fun a b => a.1 < b.1) :=
    ⟨fun a b h1 h2 => absurd h1 (not_lt_of_gt h2)⟩
  refine List.eq_of_perm_of_sorted (r := fun a b : String × Value => a.1 < b.1)
    hperm ?_ ?_
  · exact (List.Pairwise.and hs1 hkeys1).imp
      (fun h => lt_of_le_of_ne h.1 h.2)
  · exact (List.Pairwise.and hs2 hkeys2).imp
      (fun h => lt_of_le_of_ne h.1 h.2)

/-- C5: the compiled UPDATE statement's SET clause lists its
`column = $k` entries sorted lexicographically by column name,
independent of the insertion order of the input map: two permutations
of the same update map (with its necessarily distinct keys) compile to
the same statement, and the entries emitted are sorted by key. -/
theorem update_set_clause_sorted (table : String)
    (whereList : Option (List Predicate)) (u1 u2 : Record)
    (hp : u1.Perm u2) (hn : (u1.map Prod.fst).Nodup) :
    updateQuery table whereList u1 = updateQuery table whereList u2 ∧
      List.Sorted (fun a b : String × Value => a.1 ≤ b.1) (sortEntries u1) := by
  obtain ⟨hs, he⟩ := sortEntries_sorted_and_perm_invariant u1 u2 hp hn
  exact ⟨by unfold updateQuery; rw [he], hs⟩

/-- Witness for C5 at the spec's example `{b: 2, a: 1}`: the two
insertion orders compile to the same UPDATE statement, whose SET clause
orders `a` before `b`. -/
theorem update_set_clause_sorted_witness :
    updateQuery "t" none [("b", Value.int 2), ("a", Value.int 1)] =
        updateQuery "t" none [("a", Value.int 1), ("b", Value.int 2)] ∧
      List.Sorted (fun a b : String × Value => a.1 ≤ b.1)
        (sortEntries [("b", Value.int 2), ("a", Value.int 1)]) :=
  update_set_clause_sorted "t" none
    [("b", Value.int 2), ("a", Value.int 1)]
    [("a", Value.int 1), ("b", Value.int 2)]
    (by decide) (by decide)

/-! ## Lemmas about the placeholder scanner -/

/-- A character list whose head (if any) is not a digit; such a suffix
cannot extend a placeholder token ending right before it. -/
def NoDigitHead (t : List Char) : Prop :=
  ∀ c, t.head? = some c → c.isDigit = false

/-- Scanning distributes over an append whose right part does not start
with a digit. -/
theorem scanPHAux_append (s t : List Char) (st : ScanState)
    (ht : NoDigitHead t) :
    scanPHAux (s ++ t) st = scanPHAux s st ++ scanPHAux t none := by
  induction s generalizing st with
  | nil =>
    rcases st with _ | (_ | n)
    · simp [scanPHAux]
    · cases t with
      | nil => simp [scanPHAux]
      | cons c t' =>
        have hc := ht c rfl
        simp [scanPHAux, hc]
    · cases t with
      | nil => simp [scanPHAux]
      | cons c t' =>
        have hc := ht c rfl
        simp [scanPHAux, hc]
  | cons c s' ih =>
    rcases st with _ | (_ | n) <;>
      simp only [List.cons_append, scanPHAux] <;>
      split_ifs <;> simp [ih]

/-- A `$`-free prefix contributes nothing to a scan started in plain
state. -/
theorem scanPHAux_clean_prepend (s t : List Char) (hs : cleanL s = true) :
    scanPHAux (s ++ t) none = scanPHAux t none := by
  induction s with
  | nil => rfl
  | cons c s' ih =>
    simp only [cleanL, List.all_cons, Bool.and_eq_true, decide_eq_true_eq]
      at hs
    simp [scanPHAux, hs.1, ih (by simpa [cleanL] using hs.2)]

/-- A `$`-free character list contains no placeholder token. -/
theorem scanL_clean (s : List Char) (hs : cleanL s = true) : scanL s = [] := by
  have := scanPHAux_clean_prepend s [] hs
  simpa [scanL] using this

/-- The digit character of `n < 10` is a digit. -/
theorem digitChar_isDigit (n : Nat) (h : n < 10) :
    (digitChar n).isDigit = true := by
  interval_cases n <;> decide

/-- The digit character of `n < 10` decodes back to `n`. -/
theorem digitChar_toNat (n : Nat) (h : n < 10) :
    (digitChar n).toNat - 48 = n := by
  interval_cases n <;> decide

/-- Every character of the decimal rendering is a digit. -/
theorem natReprAux_all_digits (fuel n : Nat) (h : n < fuel) :
    ∀ c ∈ natReprAux fuel n, c.isDigit = true := by
  induction fuel generalizing n with
  | zero => omega
  | succ fuel ih =>
    intro c hc
    by_cases h10 : n < 10
    · simp only [natReprAux, if_pos h10, List.mem_singleton] at hc
      exact hc ▸ digitChar_isDigit n h10
    · simp only [natReprAux, if_neg h10, List.mem_append,
        List.mem_singleton] at hc
      rcases hc with hc | hc
      · exact ih (n / 10) (by omega) c hc
      · exact hc ▸ digitChar_isDigit (n % 10) (Nat.mod_lt n (by omega))

/-- The decimal rendering is never empty. -/
theorem natReprAux_ne_nil (fuel n : Nat) (h : n < fuel) :
    natReprAux fuel n ≠ [] := by
  cases fuel with
  | zero => omega
  | succ fuel =>
    by_cases h10 : n < 10 <;> simp [natReprAux, h10]

/-- The decimal rendering decodes back to its number. -/
theorem digitsVal_natReprAux (fuel n : Nat) (h : n < fuel) :
    digitsVal (natReprAux fuel n) = n := by
  induction fuel generalizing n with
  | zero => omega
  | succ fuel ih =>
    by_cases h10 : n < 10
    · simp [natReprAux, h10, digitsVal, digitChar_toNat n h10]
    · have hdiv : n / 10 < fuel := by
        have := Nat.div_lt_self (by omega : 0 < n) (by omega : 1 < 10)
        omega
      simp only [natReprAux, if_neg h10, digitsVal, List.foldl_append,
        List.foldl_cons, List.foldl_nil]
      have hmod := digitChar_toNat (n % 10) (Nat.mod_lt n (by omega))
      have := ih (n / 10) hdiv
      simp only [digitsVal] at this
      rw [this, hmod]
      omega

/-- Consuming a run of digits in number state accumulates their value
and emits one token when the run ends at a non-digit (or at the end of
the text). -/
theorem scanPHAux_digits (ds : List Char) (hd : ∀ c ∈ ds, c.isDigit = true)
    (acc : Nat) (t : List Char) (ht : NoDigitHead t) :
    scanPHAux (ds ++ t) (some (some acc)) =
      (ds.foldl (fun a c => 10 * a + (c.toNat - 48)) acc) ::
        scanPHAux t none := by
  induction ds generalizing acc with
  | nil =>
    cases t with
    | nil => simp [scanPHAux]
    | cons c t' =>
      have hc := ht c rfl
      simp [scanPHAux, hc]
  | cons d ds' ih =>
    have hdd : d.isDigit = true := hd d (List.mem_cons_self d ds')
    simp only [List.cons_append, scanPHAux, if_pos hdd, List.foldl_cons]
    exact ih (fun c hc => hd c (List.mem_cons_of_mem d hc)) _

/-- Scanning a placeholder token followed by a non-digit-headed suffix
yields the token's index followed by the scan of the suffix. -/
theorem scanL_placeholder (k : Nat) (t : List Char) (ht : NoDigitHead t) :
    scanPHAux ((placeholder k).data ++ t) none = k :: scanPHAux t none := by
  have hdata : (placeholder k).data = '$' :: natReprAux (k + 1) k := rfl
  rw [hdata]
  rcases hne : natReprAux (k + 1) k with _ | ⟨d, ds⟩
  · exact absurd hne (natReprAux_ne_nil (k + 1) k (Nat.lt_succ_self k))
  · have hdigits := natReprAux_all_digits (k + 1) k (Nat.lt_succ_self k)
    rw [hne] at hdigits
    have hdd : d.isDigit = true := hdigits d (List.mem_cons_self d ds)
    have step : scanPHAux (('$' :: (d :: ds)) ++ t) none =
        scanPHAux (ds ++ t) (some (some (d.toNat - 48))) := by
      simp [scanPHAux, hdd]
    simp only [List.cons_append] at step ⊢
    rw [step, scanPHAux_digits ds
      (fun c hc => hdigits c (List.mem_cons_of_mem d hc)) _ t ht]
    have hval : ds.foldl (fun a c => 10 * a + (c.toNat - 48))
        (10 * 0 + (d.toNat - 48)) = k := by
      have := digitsVal_natReprAux (k + 1) k (Nat.lt_succ_self k)
      rw [hne] at this
      simpa [digitsVal] using this
    simp only [Nat.mul_zero, Nat.zero_add] at hval ⊢
    rw [hval]

/-- String append acts as list append on the underlying data. -/
theorem string_data_append (s t : String) : (s ++ t).data = s.data ++ t.data :=
  rfl

/-- String-level: scanning `s ++ t` distributes when `t` does not start
with a digit. -/
theorem scanPH_append (s t : String) (ht : NoDigitHead t.data) :
    scanPH (s ++ t) = scanPH s ++ scanPH t := by
  unfold scanPH scanL
  rw [string_data_append]
  exact scanPHAux_append s.data t.data none ht

/-- String-level: a `$`-free prefix contributes nothing. -/
theorem scanPH_clean_prepend (s t : String) (hs : clean s = true) :
    scanPH (s ++ t) = scanPH t := by
  unfold scanPH scanL
  rw [string_data_append]
  exact scanPHAux_clean_prepend s.data t.data hs

/-- String-level: a `$`-free string has no placeholder tokens. -/
theorem scanPH_clean (s : String) (hs : clean s = true) : scanPH s = [] :=
  scanL_clean s.data hs

/-- Cleanliness is preserved by append. -/
theorem clean_append (s t : String) (hs : clean s = true)
    (ht : clean t = true) : clean (s ++ t) = true := by
  unfold clean cleanL at *
  rw [string_data_append, List.all_append, hs, ht]
  rfl

/-- String-level: a placeholder token followed by a non-digit-headed
suffix scans to its index followed by the scan of the suffix. -/
theorem scanPH_placeholder_append (k : Nat) (t : String)
    (ht : NoDigitHead t.data) :
    scanPH (placeholder k ++ t) = k :: scanPH t := by
  unfold scanPH scanL
  rw [string_data_append]
  exact scanL_placeholder k t.data ht

/-- A placeholder token scans exactly to its index. -/
theorem scanPH_placeholder (k : Nat) : scanPH (placeholder k) = [k] := by
  have := scanPH_placeholder_append k "" (fun c hc => by simp at hc)
  simpa [scanPH, scanL, scanPHAux] using this

/-- Scanning a separator-joined fragment list followed by a
non-digit-headed suffix yields the concatenation of the fragment scans
followed by the scan of the suffix, provided the separator is clean and
starts with a non-digit. -/
theorem scanPH_joinSep_append (sep : String) (c0 : Char)
    (hhd : sep.data.head? = some c0) (hc0 : c0.isDigit = false)
    (hcl : clean sep = true) (fs : List String) (t : String)
    (ht : NoDigitHead t.data) :
    scanPH (joinSep sep fs ++ t) = (fs.map scanPH).flatten ++ scanPH t := by
  induction fs with
  | nil =>
    have h0 : joinSep sep [] = "" := rfl
    rw [h0]
    have : ("" ++ t : String) = t := by
      apply String.ext
      simp [string_data_append]
    simp [this]
  | cons f rest ih =>
    cases rest with
    | nil =>
      have h1 : joinSep sep [f] = f := rfl
      rw [h1, scanPH_append f t ht]
      simp
    | cons g rest' =>
      have h2 : joinSep sep (f :: g :: rest') =
          f ++ sep ++ joinSep sep (g :: rest') := rfl
      rw [h2]
      have hassoc : f ++ sep ++ joinSep sep (g :: rest') ++ t =
          f ++ (sep ++ (joinSep sep (g :: rest') ++ t)) := by
        apply String.ext
        simp [string_data_append]
      rw [hassoc]
      have hsepne : (sep ++ (joinSep sep (g :: rest') ++ t)).data.head? =
          some c0 := by
        rw [string_data_append]
        rcases hd : sep.data with _ | ⟨c', l'⟩
        · rw [hd] at hhd; simp at hhd
        · rw [hd] at hhd
          simp at hhd
          simp [hd, hhd]
      have hnd : NoDigitHead (sep ++ (joinSep sep (g :: rest') ++ t)).data := by
        intro c hc
        rw [hsepne] at hc
        injection hc with h
        rw [← h]
        exact hc0
      rw [scanPH_append f _ hnd, scanPH_clean_prepend sep _ hcl, ih]
      simp

/-- The empty scan is a stair over any interval. -/
theorem stair_nil (a b : Nat) : Stair [] a b := by
  constructor <;> simp

/-- A single in-range token is a stair. -/
theorem stair_singleton {k a b : Nat} (h1 : a < k) (h2 : k ≤ b) :
    Stair [k] a b := by
  constructor
  · simp
  · intro i hi
    simp at hi
    omega

/-- Stairs over adjacent intervals concatenate. -/
theorem stair_append {l1 l2 : List Nat} {a b c : Nat} (h1 : Stair l1 a b)
    (h2 : Stair l2 b c) (hab : a ≤ b) (hbc : b ≤ c) :
    Stair (l1 ++ l2) a c := by
  obtain ⟨hc1, hm1⟩ := h1
  obtain ⟨hc2, hm2⟩ := h2
  constructor
  · rw [List.chain'_append]
    refine ⟨hc1, hc2, ?_⟩
    intro x hx y hy
    have hxl : x ∈ l1 := List.mem_of_mem_getLast? hx
    have hyl : y ∈ l2 := List.mem_of_mem_head? hy
    have := hm1 x hxl
    have := hm2 y hyl
    omega
  · intro i hi
    rcases List.mem_append.mp hi with h | h
    · have := hm1 i h; omega
    · have := hm2 i h; omega

/-- Stairs widen to larger intervals. -/
theorem stair_mono {l : List Nat} {a b a' b' : Nat} (h : Stair l a b)
    (ha : a' ≤ a) (hb : b ≤ b') : Stair l a' b' := by
  obtain ⟨hc, hm⟩ := h
  refine ⟨hc, fun i hi => ?_⟩
  have := hm i hi
  omega

/-- Consecutive fresh tokens form a stair. -/
theorem stair_range' (a n : Nat) : Stair (List.range' (a + 1) n) a (a + n) := by
  constructor
  · induction n generalizing a with
    | zero => simp
    | succ n ih =>
      rw [List.range'_succ]
      cases n with
      | zero => simp
      | succ m =>
        rw [List.range'_succ]
        refine List.Chain'.cons (by omega) ?_
        have := ih (a + 1)
        rw [List.range'_succ] at this
        exact this
  · intro i hi
    rw [List.mem_range'_1] at hi
    omega

/-- A repeated in-range token is a stair. -/
theorem stair_replicate (m k a b : Nat) (h1 : a < k) (h2 : k ≤ b) :
    Stair (List.replicate m k) a b := by
  constructor
  · exact List.chain'_replicate_of_rel m (le_refl k)
  · intro i hi
    rw [List.eq_of_mem_replicate hi]
    omega

/-- A cons list whose head is not a digit has no digit head. -/
theorem noDigitHead_cons (c : Char) (l : List Char) (h : c.isDigit = false) :
    NoDigitHead (c :: l) := by
  intro c' hc
  injection hc with h'
  rw [← h']
  exact h

/-- The empty list has no digit head. -/
theorem noDigitHead_nil : NoDigitHead ([] : List Char) := by
  intro c hc
  simp at hc

/-- A list whose head is a known non-digit has no digit head. -/
theorem noDigitHead_of_head (t : List Char) (c : Char)
    (h : t.head? = some c) (hd : c.isDigit = false) : NoDigitHead t := by
  intro c' hc'
  rw [h] at hc'
  injection hc' with h'
  rw [← h']
  exact hd

/-- Flattening singleton lists recovers the list. -/
theorem flatten_map_pure (ks : List Nat) :
    (ks.map (fun k => [k])).flatten = ks := by
  induction ks with
  | nil => rfl
  | cons k rest ih => simp [ih]

/-- Flattening constant singleton lists yields a replicate. -/
theorem flatten_map_singleton {α : Type} (l : List α) (k : Nat) :
    (l.map (fun _ => [k])).flatten = List.replicate l.length k := by
  induction l with
  | nil => rfl
  | cons x rest ih => simp [ih, List.replicate_succ]

/-- A clean column followed by ` ILIKE ` and a placeholder scans to the
placeholder index alone. -/
theorem scanPH_ilike (col : String) (hcol : clean col = true) (k : Nat) :
    scanPH (col ++ " ILIKE " ++ placeholder k) = [k] := by
  rw [String.append_assoc]
  rw [scanPH_clean_prepend col _ hcol,
    scanPH_clean_prepend " ILIKE " _ (by decide)]
  exact scanPH_placeholder k

/-- A single predicate compilation appends exactly its bound values to
the binder. -/
theorem applyPredicate_snd (p : Predicate) (ps : List Value) :
    (applyPredicate p ps).2 = ps ++ boundValues p := by
  rcases p with ⟨col, v⟩ | ⟨col, vs⟩ | ⟨col, vs⟩ | ⟨col, v⟩ | ⟨cols, v⟩
  · by_cases h : v = Value.null <;>
      simp [applyPredicate, boundValues, bindParam, h]
  · simp [applyPredicate, boundValues, bindAll_spec]
  · simp [applyPredicate, boundValues, bindAll_spec]
  · simp [applyPredicate, boundValues, bindParam]
  · simp [applyPredicate, boundValues, bindParam]

/-- Scan of the fragment produced by a single predicate with clean
column names: `eq` yields one token (none for null), `inP`/`notIn`
yield one fresh token per value, `arrayContains` one token, and
`textSearch` its single token repeated once per column. -/
theorem applyPredicate_scan (p : Predicate) (ps : List Value)
    (hp : cleanPred p = true) :
    scanPH (applyPredicate p ps).1 =
      (match p with
       | .eq _ v => if v = Value.null then [] else [ps.length + 1]
       | .inP _ vs => List.range' (ps.length + 1) vs.length
       | .notIn _ vs => List.range' (ps.length + 1) vs.length
       | .arrayContains _ _ => [ps.length + 1]
       | .textSearch cols _ =>
         List.replicate cols.length (ps.length + 1)) := by
  rcases p with ⟨col, v⟩ | ⟨col, vs⟩ | ⟨col, vs⟩ | ⟨col, v⟩ | ⟨cols, v⟩
  · simp only [cleanPred] at hp
    by_cases h : v = Value.null
    · simp only [applyPredicate, h, if_neg (by simp : ¬Value.null ≠ Value.null)]
      rw [scanPH_clean _ (clean_append col " IS NULL" hp (by decide))]
      simp [h]
    · simp only [applyPredicate, if_pos h, bindParam]
      rw [String.append_assoc,
        scanPH_clean_prepend col _ hp,
        scanPH_clean_prepend " = " _ (by decide),
        scanPH_placeholder]
      simp [h]
  · simp only [cleanPred] at hp
    simp only [applyPredicate, bindAll_spec]
    have hassoc : col ++ " IN (" ++
        joinSep ", " ((List.range' (ps.length + 1) vs.length).map placeholder)
        ++ ")" =
        col ++ (" IN (" ++
          (joinSep ", "
            ((List.range' (ps.length + 1) vs.length).map placeholder) ++
            ")")) := by
      simp [String.append_assoc]
    rw [hassoc, scanPH_clean_prepend col _ hp,
      scanPH_clean_prepend " IN (" _ (by decide),
      scanPH_joinSep_append ", " ',' rfl (by decide) (by decide) _ ")"
        (noDigitHead_cons ')' [] (by decide))]
    rw [scanPH_clean ")" (by decide)]
    simp [List.map_map, Function.comp_def, scanPH_placeholder,
      flatten_map_pure]
  · simp only [cleanPred] at hp
    simp only [applyPredicate, bindAll_spec]
    have hassoc : col ++ " NOT IN (" ++
        joinSep ", " ((List.range' (ps.length + 1) vs.length).map placeholder)
        ++ ")" =
        col ++ (" NOT IN (" ++
          (joinSep ", "
            ((List.range' (ps.length + 1) vs.length).map placeholder) ++
            ")")) := by
      simp [String.append_assoc]
    rw [hassoc, scanPH_clean_prepend col _ hp,
      scanPH_clean_prepend " NOT IN (" _ (by decide),
      scanPH_joinSep_append ", " ',' rfl (by decide) (by decide) _ ")"
        (noDigitHead_cons ')' [] (by decide))]
    rw [scanPH_clean ")" (by decide)]
    simp [List.map_map, Function.comp_def, scanPH_placeholder,
      flatten_map_pure]
  · simp only [cleanPred] at hp
    simp only [applyPredicate, bindParam]
    have hassoc : placeholder (ps.length + 1) ++ " = ANY(" ++ col ++ ")" =
        placeholder (ps.length + 1) ++ (" = ANY(" ++ (col ++ ")")) := by
      simp [String.append_assoc]
    rw [hassoc,
      scanPH_placeholder_append (ps.length + 1) (" = ANY(" ++ (col ++ ")"))
        (noDigitHead_of_head _ ' ' rfl (by decide)),
      scanPH_clean _ (clean_append " = ANY(" _ (by decide)
        (clean_append col ")" hp (by decide)))]
  · simp only [cleanPred, List.all_eq_true] at hp
    simp only [applyPredicate, bindParam, List.length_map]
    rcases cols with _ | ⟨c1, cols'⟩
    · simp [scanPH_clean "undefined" (by decide)]
    · rcases cols' with _ | ⟨c2, cols''⟩
      · simp only [List.map_cons, List.map_nil, List.length_cons,
          List.length_nil]
        rw [if_neg (by omega)]
        rw [show ([c1 ++ " ILIKE " ++ placeholder (ps.length + 1)] :
            List String).headD "undefined" =
            c1 ++ " ILIKE " ++ placeholder (ps.length + 1) from rfl]
        rw [scanPH_ilike c1 (hp c1 (by simp)) (ps.length + 1)]
        rfl
      · rw [if_pos (by simp)]
        have hassoc : "(" ++
            joinSep " OR "
              ((c1 :: c2 :: cols'').map
                (fun column => column ++ " ILIKE " ++
                  placeholder (ps.length + 1))) ++ ")" =
            "(" ++
              (joinSep " OR "
                ((c1 :: c2 :: cols'').map
                  (fun column => column ++ " ILIKE " ++
                    placeholder (ps.length + 1))) ++ ")") := by
          simp [String.append_assoc]
        rw [hassoc, scanPH_clean_prepend "(" _ (by decide),
          scanPH_joinSep_append " OR " ' ' rfl (by decide) (by decide) _ ")"
            (noDigitHead_cons ')' [] (by decide))]
        rw [scanPH_clean ")" (by decide)]
        have hmap : ((c1 :: c2 :: cols'').map
            (fun column => column ++ " ILIKE " ++
              placeholder (ps.length + 1))).map scanPH =
            (c1 :: c2 :: cols'').map (fun _ => [ps.length + 1]) := by
          rw [List.map_map]
          apply List.map_congr_left
          intro c hc
          exact scanPH_ilike c (hp c hc) (ps.length + 1)
        rw [hmap, flatten_map_singleton]
        simp

/-- Appending the empty string is the identity. -/
theorem append_empty_str (s : String) : s ++ "" = s := by
  apply String.ext
  simp [string_data_append]

/-- Scanning without a suffix, as a special case of the join lemma. -/
theorem scanPH_joinSep (sep : String) (c0 : Char)
    (hhd : sep.data.head? = some c0) (hc0 : c0.isDigit = false)
    (hcl : clean sep = true) (fs : List String) :
    scanPH (joinSep sep fs) = (fs.map scanPH).flatten := by
  have := scanPH_joinSep_append sep c0 hhd hc0 hcl fs ""
    (by intro c hc; simp at hc)
  rw [append_empty_str] at this
  simpa [scanPH, scanL, scanPHAux] using this

/-- A join of clean fragments with a clean separator is clean. -/
theorem clean_joinSep (sep : String) (hs : clean sep = true)
    (fs : List String) (hf : ∀ f ∈ fs, clean f = true) :
    clean (joinSep sep fs) = true := by
  induction fs with
  | nil => rfl
  | cons f rest ih =>
    cases rest with
    | nil => exact hf f (by simp)
    | cons g rest' =>
      have h2 : joinSep sep (f :: g :: rest') =
          f ++ sep ++ joinSep sep (g :: rest') := rfl
      rw [h2]
      exact clean_append _ _ (clean_append _ _ (hf f (by simp)) hs)
        (ih (fun x hx => hf x (List.mem_cons_of_mem f hx)))

/-- A clean column, ` = `, and a placeholder scan to the placeholder
index alone. -/
theorem scanPH_col_eq_ph (col : String) (hcol : clean col = true) (k : Nat) :
    scanPH (col ++ " = " ++ placeholder k) = [k] := by
  rw [String.append_assoc, scanPH_clean_prepend col _ hcol,
    scanPH_clean_prepend " = " _ (by decide)]
  exact scanPH_placeholder k

/-- A predicate-list compilation appends exactly the concatenation of
each predicate's bound values. -/
theorem applyPredicates_snd (ws : List Predicate) (ps : List Value) :
    (applyPredicates ws ps).2 = ps ++ boundValuesList ws := by
  induction ws generalizing ps with
  | nil => simp [applyPredicates, boundValuesList]
  | cons w rest ih =>
    simp only [applyPredicates, ih, applyPredicate_snd, boundValuesList,
      List.map_cons, List.flatten_cons, List.append_assoc]

/-- The scan of a single predicate's fragment is a stair over the
interval of parameter positions that compilation appended. -/
theorem applyPredicate_stair (p : Predicate) (ps : List Value)
    (hp : cleanPred p = true) :
    Stair (scanPH (applyPredicate p ps).1) ps.length
      (ps.length + (boundValues p).length) := by
  rw [applyPredicate_scan p ps hp]
  rcases p with ⟨col, v⟩ | ⟨col, vs⟩ | ⟨col, vs⟩ | ⟨col, v⟩ | ⟨cols, v⟩
  · by_cases h : v = Value.null
    · simp only [h, if_pos rfl]
      exact stair_nil _ _
    · simp only [if_neg h, boundValues, h, ne_eq, not_false_eq_true, if_pos]
      exact stair_singleton (Nat.lt_succ_self _) (by simp)
  · simpa [boundValues] using stair_range' ps.length vs.length
  · simpa [boundValues] using stair_range' ps.length vs.length
  · simpa [boundValues] using
      stair_singleton (Nat.lt_succ_self ps.length) (le_refl (ps.length + 1))
  · simpa [boundValues] using
      stair_replicate cols.length (ps.length + 1) ps.length (ps.length + 1)
        (Nat.lt_succ_self _) (le_refl _)

/-- The concatenated scans of a predicate-list compilation form a stair
over the whole appended parameter interval. -/
theorem applyPredicates_stair (ws : List Predicate) (ps : List Value)
    (hws : cleanPreds ws = true) :
    Stair (((applyPredicates ws ps).1.map scanPH).flatten) ps.length
      (ps.length + (boundValuesList ws).length) := by
  induction ws generalizing ps with
  | nil =>
    simp only [applyPredicates, List.map_nil, List.flatten_nil]
    exact stair_nil _ _
  | cons w rest ih =>
    simp only [cleanPreds, List.all_cons, Bool.and_eq_true] at hws
    simp only [applyPredicates, List.map_cons, List.flatten_cons]
    have h1 := applyPredicate_stair w ps hws.1
    have h2 := ih (applyPredicate w ps).2 (by simpa [cleanPreds] using hws.2)
    have hlen2 : ((applyPredicate w ps).2).length =
        ps.length + (boundValues w).length := by
      rw [applyPredicate_snd]
      simp
    rw [hlen2] at h2
    have := stair_append h1 h2 (by omega) (by omega)
    have hlen : (boundValuesList (w :: rest)).length =
        (boundValues w).length + (boundValuesList rest).length := by
      simp [boundValuesList]
    rw [hlen]
    have harr : ps.length + ((boundValues w).length +
        (boundValuesList rest).length) =
        ps.length + (boundValues w).length + (boundValuesList rest).length :=
      by omega
    rw [harr]
    exact this

/-- Scan of the shared `base [++ " WHERE " ++ predicates] ++ t` shape
of the SELECT/COUNT/DELETE compilers: the base never contributes, the
WHERE clause contributes the predicate scans, and `t` follows. -/
theorem scanPH_base_where (base : String) (hb : clean base = true)
    (ws : List Predicate) (t : String) (ht : NoDigitHead t.data) :
    scanPH ((if (applyPredicates ws []).1.length ≠ 0 then
        base ++ " WHERE " ++ joinSep " AND " (applyPredicates ws []).1
      else base) ++ t) =
      (((applyPredicates ws []).1.map scanPH)).flatten ++ scanPH t := by
  by_cases h : (applyPredicates ws []).1.length ≠ 0
  · rw [if_pos h]
    have hassoc : base ++ " WHERE " ++
        joinSep " AND " (applyPredicates ws []).1 ++ t =
        base ++ (" WHERE " ++
          (joinSep " AND " (applyPredicates ws []).1 ++ t)) := by
      simp [String.append_assoc]
    rw [hassoc, scanPH_clean_prepend base _ hb,
      scanPH_clean_prepend " WHERE " _ (by decide),
      scanPH_joinSep_append " AND " ' ' rfl (by decide) (by decide) _ t ht]
  · rw [if_neg h]
    have hnil : (applyPredicates ws []).1 = [] := by
      push_neg at h
      exact List.length_eq_zero.mp h
    rw [hnil, scanPH_clean_prepend base _ hb]
    simp

/-- `scanPH_base_where` without a trailing suffix. -/
theorem scanPH_base_where_noTail (base : String) (hb : clean base = true)
    (ws : List Predicate) :
    scanPH (if (applyPredicates ws []).1.length ≠ 0 then
        base ++ " WHERE " ++ joinSep " AND " (applyPredicates ws []).1
      else base) =
      (((applyPredicates ws []).1.map scanPH)).flatten := by
  have := scanPH_base_where base hb ws "" (by intro c hc; simp at hc)
  rw [append_empty_str] at this
  simpa [scanPH, scanL, scanPHAux] using this

/-- Four-way string append reassociation. -/
theorem str_assoc4 (a b c d : String) :
    ((a ++ b) ++ c) ++ d = a ++ (b ++ (c ++ d)) := by
  simp [String.append_assoc]

/-- Five-way string append reassociation. -/
theorem str_assoc5 (a b c d e : String) :
    (((a ++ b) ++ c) ++ d) ++ e = a ++ (b ++ (c ++ (d ++ e))) := by
  simp [String.append_assoc]

/-- Six-way string append reassociation. -/
theorem str_assoc6 (a b c d e f : String) :
    ((((a ++ b) ++ c) ++ d) ++ e) ++ f =
      a ++ (b ++ (c ++ (d ++ (e ++ f)))) := by
  simp [String.append_assoc]

/-- All columns of a clean record are clean. -/
theorem cleanRecord_columns (r : Record) (h : cleanRecord r = true) :
    ∀ col ∈ r.map Prod.fst, clean col = true := by
  simp only [cleanRecord, List.all_eq_true] at h
  intro col hcol
  obtain ⟨e, he, rfl⟩ := List.mem_map.mp hcol
  exact h e he

/-- C1 helper: the scan of a findOne statement is a stair over the
whole parameter list. -/
theorem findOneQuery_stair (table : String) (w : Option (List Predicate))
    (htab : clean table = true) (hw : cleanWhere w = true) :
    Stair (scanPH (findOneQuery table w).1) 0
      (findOneQuery table w).2.length := by
  have hscan : scanPH (findOneQuery table w).1 =
      (((applyPredicates (w.getD []) []).1.map scanPH)).flatten := by
    simp only [findOneQuery]
    rw [scanPH_base_where ("SELECT * FROM " ++ table)
      (clean_append _ _ (by decide) htab) (w.getD []) " LIMIT 1"
      (noDigitHead_of_head _ ' ' rfl (by decide))]
    rw [scanPH_clean " LIMIT 1" (by decide)]
    simp
  have hlen : (findOneQuery table w).2.length =
      (boundValuesList (w.getD [])).length := by
    simp only [findOneQuery]
    rw [applyPredicates_snd]
    simp
  rw [hscan, hlen]
  simpa using applyPredicates_stair (w.getD []) [] hw

/-- C1 helper: the scan of a count statement is a stair over the whole
parameter list. -/
theorem countQuery_stair (table : String) (ws : List Predicate)
    (htab : clean table = true) (hws : cleanPreds ws = true) :
    Stair (scanPH (countQuery table ws).1) 0 (countQuery table ws).2.length := by
  have hscan : scanPH (countQuery table ws).1 =
      (((applyPredicates ws []).1.map scanPH)).flatten := by
    simp only [countQuery]
    exact scanPH_base_where_noTail ("SELECT COUNT(*) AS cnt FROM " ++ table)
      (clean_append _ _ (by decide) htab) ws
  have hlen : (countQuery table ws).2.length =
      (boundValuesList ws).length := by
    simp only [countQuery]
    rw [applyPredicates_snd]
    simp
  rw [hscan, hlen]
  simpa using applyPredicates_stair ws [] hws

/-- C1 helper: the scan of a delete statement is a stair over the whole
parameter list. -/
theorem deleteQuery_stair (table : String) (w : Option (List Predicate))
    (htab : clean table = true) (hw : cleanWhere w = true) :
    Stair (scanPH (deleteQuery table w).1) 0
      (deleteQuery table w).2.length := by
  have hscan : scanPH (deleteQuery table w).1 =
      (((applyPredicates (w.getD []) []).1.map scanPH)).flatten := by
    simp only [deleteQuery]
    exact scanPH_base_where_noTail ("DELETE FROM " ++ table)
      (clean_append _ _ (by decide) htab) (w.getD [])
  have hlen : (deleteQuery table w).2.length =
      (boundValuesList (w.getD [])).length := by
    simp only [deleteQuery]
    rw [applyPredicates_snd]
    simp
  rw [hscan, hlen]
  simpa using applyPredicates_stair (w.getD []) [] hw

/-- Eight-way string append reassociation. -/
theorem str_assoc8 (a b c d e f g h : String) :
    ((((((a ++ b) ++ c) ++ d) ++ e) ++ f) ++ g) ++ h =
      a ++ (b ++ (c ++ (d ++ (e ++ (f ++ (g ++ h)))))) := by
  simp [String.append_assoc]

/-- C1 helper: the scan of a save statement is exactly the fresh
consecutive tokens `$1 … $n` in order. -/
theorem saveQuery_scan (table : String) (record : Record)
    (htab : clean table = true) (hrec : cleanRecord record = true) :
    scanPH (saveQuery table record).1 = List.range' 1 record.length := by
  simp only [saveQuery, bindAll_spec]
  have hcols := cleanRecord_columns record hrec
  rw [str_assoc8 "INSERT INTO " table " ("
    (joinSep ", " (record.map Prod.fst)) ") VALUES ("
    (joinSep ", " ((List.range' (List.length ([] : List Value) + 1)
      (record.map Prod.snd).length).map placeholder))
    ")\n      ON CONFLICT (id) DO UPDATE SET "
    (joinSep ", " ((record.map Prod.fst).map
      (fun col => col ++ " = EXCLUDED." ++ col)))]
  rw [scanPH_clean_prepend "INSERT INTO " _ (by decide),
    scanPH_clean_prepend table _ htab,
    scanPH_clean_prepend " (" _ (by decide),
    scanPH_clean_prepend (joinSep ", " (record.map Prod.fst)) _
      (clean_joinSep ", " (by decide) _ hcols),
    scanPH_clean_prepend ") VALUES (" _ (by decide),
    scanPH_joinSep_append ", " ',' rfl (by decide) (by decide) _
      (")\n      ON CONFLICT (id) DO UPDATE SET " ++
        joinSep ", " ((record.map Prod.fst).map
          (fun col => col ++ " = EXCLUDED." ++ col)))
      (noDigitHead_of_head _ ')' rfl (by decide))]
  have hexcl : clean (joinSep ", " ((record.map Prod.fst).map
      (fun col => col ++ " = EXCLUDED." ++ col))) = true := by
    refine clean_joinSep ", " (by decide) _ ?_
    intro f hf
    obtain ⟨col, hcol, rfl⟩ := List.mem_map.mp hf
    exact clean_append (col ++ " = EXCLUDED.") col
      (clean_append col " = EXCLUDED." (hcols col hcol) (by decide))
      (hcols col hcol)
  rw [scanPH_clean_prepend ")\n      ON CONFLICT (id) DO UPDATE SET " _
    (by decide), scanPH_clean _ hexcl]
  simp [List.map_map, Function.comp_def, scanPH_placeholder, flatten_map_pure]

/-- The empty string scans to nothing. -/
theorem scanPH_empty : scanPH "" = [] := rfl

/-- The head of an append with a non-empty non-digit-headed left part
is not a digit. -/
theorem noDigitHead_append_left (s t : String) (hs : NoDigitHead s.data)
    (hne : s.data ≠ []) : NoDigitHead (s ++ t).data := by
  intro c hc
  rw [string_data_append] at hc
  rcases hd : s.data with _ | ⟨c1, l⟩
  · exact absurd hd hne
  · rw [hd, List.cons_append, List.head?_cons] at hc
    injection hc with h'
    subst h'
    exact hs c1 (by rw [hd, List.head?_cons])

/-- Appending the next fresh token keeps a stair. -/
theorem stair_snoc {l : List Nat} {a b : Nat} (h : Stair l a b)
    (hab : a ≤ b) : Stair (l ++ [b + 1]) a (b + 1) :=
  stair_append h (stair_singleton (Nat.lt_succ_self b) (le_refl (b + 1)))
    hab (Nat.le_succ b)

/-- Appending the next two fresh tokens keeps a stair. -/
theorem stair_snoc2 {l : List Nat} {a b : Nat} (h : Stair l a b)
    (hab : a ≤ b) : Stair (l ++ [b + 1, b + 2]) a (b + 2) := by
  have h1 : Stair [b + 1] b (b + 1) :=
    stair_singleton (Nat.lt_succ_self b) (le_refl _)
  have h2 : Stair [b + 2] (b + 1) (b + 2) :=
    stair_singleton (Nat.lt_succ_self _) (le_refl _)
  have h12 : Stair [b + 1, b + 2] b (b + 2) :=
    stair_append h1 h2 (Nat.le_succ b) (Nat.le_succ _)
  exact stair_append h h12 hab (by omega)

/-- The two directions enumerate to clean uppercase strings. -/
theorem clean_upper (d : Direction) : clean d.upper = true := by
  cases d <;> decide

/-- A placeholder, ` LIMIT `, and a second placeholder scan to the two
indices in textual order. -/
theorem scanPH_ph_limit (k m : Nat) :
    scanPH (placeholder k ++ (" LIMIT " ++ placeholder m)) = [k, m] := by
  rw [scanPH_placeholder_append k (" LIMIT " ++ placeholder m)
    (noDigitHead_of_head _ ' ' rfl (by decide)),
    scanPH_clean_prepend " LIMIT " _ (by decide), scanPH_placeholder]

/-- C1 helper: the scan of a search statement is a stair over the whole
parameter list (WHERE tokens first, then the offset and limit tokens,
all in bind order). -/
theorem searchQuery_stair (table : String) (spec : SearchSpec)
    (htab : clean table = true) (hspec : cleanSpec spec = true) :
    Stair (scanPH (searchQuery table spec).1) 0
      (searchQuery table spec).2.length := by
  rcases spec with ⟨w, o, off, lim⟩
  simp only [cleanSpec, Bool.and_eq_true, cleanWhere] at hspec
  obtain ⟨hw, ho⟩ := hspec
  have hbase : clean ("SELECT * FROM " ++ table) = true :=
    clean_append _ _ (by decide) htab
  have hF := applyPredicates_stair (w.getD []) [] hw
  simp only [List.length_nil, Nat.zero_add] at hF
  have hL : (applyPredicates (w.getD []) []).2.length =
      (boundValuesList (w.getD [])).length := by
    rw [applyPredicates_snd]
    simp
  have hnd1 : NoDigitHead (" OFFSET " : String).data :=
    noDigitHead_of_head _ ' ' rfl (by decide)
  have hnd2 : NoDigitHead (" LIMIT " : String).data :=
    noDigitHead_of_head _ ' ' rfl (by decide)
  rcases o with _ | os
  · have hq2 : ∀ t : String, NoDigitHead t.data →
        scanPH ((if (applyPredicates (w.getD []) []).1.length ≠ 0 then
            "SELECT * FROM " ++ table ++ " WHERE " ++
              joinSep " AND " (applyPredicates (w.getD []) []).1
          else "SELECT * FROM " ++ table) ++ t) =
        ((applyPredicates (w.getD []) []).1.map scanPH).flatten ++
          scanPH t :=
      fun t ht => scanPH_base_where ("SELECT * FROM " ++ table) hbase
        (w.getD []) t ht
    rcases off with _ | ov <;> rcases lim with _ | lv <;>
      simp only [searchQuery, bindParam]
    · rw [scanPH_base_where_noTail ("SELECT * FROM " ++ table) hbase
        (w.getD []), hL]
      exact hF
    · rw [String.append_assoc,
        hq2 _ (noDigitHead_append_left " LIMIT " _ hnd2 (by decide)),
        scanPH_clean_prepend " LIMIT " _ (by decide), scanPH_placeholder]
      simp only [List.length_append, List.length_cons, List.length_nil, hL]
      exact stair_snoc hF (Nat.zero_le _)
    · rw [String.append_assoc,
        hq2 _ (noDigitHead_append_left " OFFSET " _ hnd1 (by decide)),
        scanPH_clean_prepend " OFFSET " _ (by decide), scanPH_placeholder]
      simp only [List.length_append, List.length_cons, List.length_nil, hL]
      exact stair_snoc hF (Nat.zero_le _)
    · rw [str_assoc5,
        hq2 _ (noDigitHead_append_left " OFFSET " _ hnd1 (by decide)),
        scanPH_clean_prepend " OFFSET " _ (by decide), scanPH_ph_limit]
      simp only [List.length_append, List.length_cons, List.length_nil, hL]
      exact stair_snoc2 hF (Nat.zero_le _)
  · have hJ : clean (joinSep ", "
        (os.map (fun o => o.column ++ " " ++ o.direction.upper))) = true := by
      refine clean_joinSep ", " (by decide) _ ?_
      intro f hf
      obtain ⟨x, hx, rfl⟩ := List.mem_map.mp hf
      have hxc : clean x.column = true := by
        simp only [Option.getD, List.all_eq_true] at ho
        exact ho x hx
      exact clean_append _ _ (clean_append _ _ hxc (by decide))
        (clean_upper x.direction)
    by_cases hlen : os.length ≠ 0
    · have hq2 : ∀ t : String, NoDigitHead t.data →
          scanPH (((if (applyPredicates (w.getD []) []).1.length ≠ 0 then
              "SELECT * FROM " ++ table ++ " WHERE " ++
                joinSep " AND " (applyPredicates (w.getD []) []).1
            else "SELECT * FROM " ++ table) ++ " ORDER BY " ++
            joinSep ", "
              (os.map (fun o => o.column ++ " " ++ o.direction.upper))) ++
            t) =
          ((applyPredicates (w.getD []) []).1.map scanPH).flatten ++
            scanPH t := by
        intro t ht
        rw [str_assoc4,
          scanPH_base_where ("SELECT * FROM " ++ table) hbase (w.getD []) _
            (noDigitHead_append_left " ORDER BY " _
              (noDigitHead_of_head _ ' ' rfl (by decide)) (by decide)),
          scanPH_clean_prepend " ORDER BY " _ (by decide),
          scanPH_clean_prepend _ _ hJ]
      rcases off with _ | ov <;> rcases lim with _ | lv <;>
        simp only [searchQuery, bindParam] <;>
        rw [if_pos hlen]
      · have h0 := hq2 "" (by intro c hc; simp at hc)
        rw [append_empty_str, scanPH_empty] at h0
        rw [h0, hL]
        simpa using hF
      · rw [String.append_assoc,
          hq2 _ (noDigitHead_append_left " LIMIT " _ hnd2 (by decide)),
          scanPH_clean_prepend " LIMIT " _ (by decide), scanPH_placeholder]
        simp only [List.length_append, List.length_cons, List.length_nil, hL]
        exact stair_snoc hF (Nat.zero_le _)
      · rw [String.append_assoc,
          hq2 _ (noDigitHead_append_left " OFFSET " _ hnd1 (by decide)),
          scanPH_clean_prepend " OFFSET " _ (by decide), scanPH_placeholder]
        simp only [List.length_append, List.length_cons, List.length_nil, hL]
        exact stair_snoc hF (Nat.zero_le _)
      · rw [str_assoc5,
          hq2 _ (noDigitHead_append_left " OFFSET " _ hnd1 (by decide)),
          scanPH_clean_prepend " OFFSET " _ (by decide), scanPH_ph_limit]
        simp only [List.length_append, List.length_cons, List.length_nil, hL]
        exact stair_snoc2 hF (Nat.zero_le _)
    · have hq2 : ∀ t : String, NoDigitHead t.data →
          scanPH ((if (applyPredicates (w.getD []) []).1.length ≠ 0 then
              "SELECT * FROM " ++ table ++ " WHERE " ++
                joinSep " AND " (applyPredicates (w.getD []) []).1
            else "SELECT * FROM " ++ table) ++ t) =
          ((applyPredicates (w.getD []) []).1.map scanPH).flatten ++
            scanPH t :=
        fun t ht => scanPH_base_where ("SELECT * FROM " ++ table) hbase
          (w.getD []) t ht
      rcases off with _ | ov <;> rcases lim with _ | lv <;>
        simp only [searchQuery, bindParam] <;>
        rw [if_neg hlen]
      · rw [scanPH_base_where_noTail ("SELECT * FROM " ++ table) hbase
          (w.getD []), hL]
        exact hF
      · rw [String.append_assoc,
          hq2 _ (noDigitHead_append_left " LIMIT " _ hnd2 (by decide)),
          scanPH_clean_prepend " LIMIT " _ (by decide), scanPH_placeholder]
        simp only [List.length_append, List.length_cons, List.length_nil, hL]
        exact stair_snoc hF (Nat.zero_le _)
      · rw [String.append_assoc,
          hq2 _ (noDigitHead_append_left " OFFSET " _ hnd1 (by decide)),
          scanPH_clean_prepend " OFFSET " _ (by decide), scanPH_placeholder]
        simp only [List.length_append, List.length_cons, List.length_nil, hL]
        exact stair_snoc hF (Nat.zero_le _)
      · rw [str_assoc5,
          hq2 _ (noDigitHead_append_left " OFFSET " _ hnd1 (by decide)),
          scanPH_clean_prepend " OFFSET " _ (by decide), scanPH_ph_limit]
        simp only [List.length_append, List.length_cons, List.length_nil, hL]
        exact stair_snoc2 hF (Nat.zero_le _)

/-- Binding the SET-clause assignments: fragment scans are the fresh
consecutive tokens, and the values are appended in entry order. -/
theorem bindAssignments_spec (entries : Record) (ps : List Value)
    (hc : cleanRecord entries = true) :
    ((bindAssignments ps entries).1.map scanPH).flatten =
      List.range' (ps.length + 1) entries.length ∧
    (bindAssignments ps entries).2 = ps ++ entries.map Prod.snd := by
  induction entries generalizing ps with
  | nil => simp [bindAssignments]
  | cons e rest ih =>
    obtain ⟨col, v⟩ := e
    simp only [cleanRecord, List.all_cons, Bool.and_eq_true] at hc
    have hcol : clean col = true := by simpa using hc.1
    obtain ⟨ih1, ih2⟩ := ih (ps ++ [v]) (by simpa [cleanRecord] using hc.2)
    simp only [bindAssignments, bindParam, List.map_cons, List.flatten_cons]
    constructor
    · rw [scanPH_col_eq_ph col hcol, ih1]
      simp only [List.length_append, List.length_cons, List.length_nil,
        List.length_map]
      rw [List.range'_succ]
      rfl
    · rw [ih2]
      simp

/-- Sorting the update entries preserves key cleanliness. -/
theorem cleanRecord_sortEntries (u : Record) (h : cleanRecord u = true) :
    cleanRecord (sortEntries u) = true := by
  simp only [cleanRecord, List.all_eq_true] at h ⊢
  intro e he
  exact h e ((List.perm_insertionSort _ u).mem_iff.mp he)

/-- C1 helper: the scan of an update statement is the SET-clause tokens
(fresh, consecutive, in bind order) followed by the WHERE-clause
tokens, and the parameter list is the WHERE values followed by the SET
values. -/
theorem updateQuery_scan (table : String) (w : Option (List Predicate))
    (u : Record) (htab : clean table = true)
    (hu : cleanRecord u = true) :
    scanPH (updateQuery table w u).1 =
      List.range' ((boundValuesList (w.getD [])).length + 1)
          (sortEntries u).length ++
        ((applyPredicates (w.getD []) []).1.map scanPH).flatten ∧
    (updateQuery table w u).2 =
      boundValuesList (w.getD []) ++ (sortEntries u).map Prod.snd := by
  have hL : (applyPredicates (w.getD []) []).2.length =
      (boundValuesList (w.getD [])).length := by
    rw [applyPredicates_snd]
    simp
  obtain ⟨hb1, hb2⟩ := bindAssignments_spec (sortEntries u)
    (applyPredicates (w.getD []) []).2 (cleanRecord_sortEntries u hu)
  simp only [updateQuery]
  constructor
  · by_cases h : (applyPredicates (w.getD []) []).1.length ≠ 0
    · rw [if_pos h]
      rw [str_assoc6 "UPDATE " table " SET "
        (joinSep ", " (bindAssignments (applyPredicates (w.getD []) []).2
          (sortEntries u)).1) " WHERE "
        (joinSep " AND " (applyPredicates (w.getD []) []).1)]
      rw [scanPH_clean_prepend "UPDATE " _ (by decide),
        scanPH_clean_prepend table _ htab,
        scanPH_clean_prepend " SET " _ (by decide),
        scanPH_joinSep_append ", " ',' rfl (by decide) (by decide) _
          (" WHERE " ++ joinSep " AND " (applyPredicates (w.getD []) []).1)
          (noDigitHead_append_left " WHERE " _
            (noDigitHead_of_head _ ' ' rfl (by decide)) (by decide)),
        scanPH_clean_prepend " WHERE " _ (by decide),
        scanPH_joinSep " AND " ' ' rfl (by decide) (by decide)]
      rw [hb1, hL]
    · rw [if_neg h]
      push_neg at h
      have hnil : (applyPredicates (w.getD []) []).1 = [] :=
        List.length_eq_zero.mp h
      rw [str_assoc4 "UPDATE " table " SET "
        (joinSep ", " (bindAssignments (applyPredicates (w.getD []) []).2
          (sortEntries u)).1)]
      rw [scanPH_clean_prepend "UPDATE " _ (by decide),
        scanPH_clean_prepend table _ htab,
        scanPH_clean_prepend " SET " _ (by decide),
        scanPH_joinSep ", " ',' rfl (by decide) (by decide)]
      rw [hb1, hL, hnil]
      simp
  · rw [hb2, applyPredicates_snd]
    simp

/-- A stair over the whole parameter interval gives the well-formed
placeholder property. -/
theorem phOrdered_of_stair {qp : String × List Value}
    (h : Stair (scanPH qp.1) 0 qp.2.length) : PhOrdered qp :=
  ⟨h.1, fun i hi => ⟨(h.2 i hi).1, (h.2 i hi).2⟩⟩

/-- Deduplicating a non-empty replicate leaves one element. -/
theorem dedup_replicate_pos (m : Nat) (a : Nat) (h : m ≠ 0) :
    (List.replicate m a).dedup = [a] := by
  induction m with
  | zero => exact absurd rfl h
  | succ n ih =>
    cases n with
    | zero => simp
    | succ p =>
      rw [List.replicate_succ, List.dedup_cons_of_mem
        (by simp [List.mem_replicate])]
      exact ih (by omega)

/-- C1 (counterexample): for the update statement with where
`id = "1"` and update `{name: "x"}` the compiled text is
`UPDATE t SET name = $2 WHERE id = $1`, whose placeholder indices read
`[2, 1]` left to right — not in bind order — so the claim's invariant
fails on `update`. -/
theorem update_placeholder_bind_order_counterexample :
    scanPH (updateQuery "t" (some [Predicate.eq "id" (Value.str "1")])
        [("name", Value.str "x")]).1 = [2, 1] ∧
    ¬ PhOrdered (updateQuery "t" (some [Predicate.eq "id" (Value.str "1")])
        [("name", Value.str "x")]) := by
  constructor
  · decide
  · intro h
    have h2 := h.1
    have h3 : scanPH (updateQuery "t"
        (some [Predicate.eq "id" (Value.str "1")])
        [("name", Value.str "x")]).1 = [2, 1] := by decide
    rw [h3] at h2
    simp [List.chain'_cons] at h2

/-- C1 (amended): for findOne/findById/search/count/save/delete the
compiled statement satisfies the invariant as claimed — every
placeholder index addresses exactly one parameter entry (it lies in
`[1, params.length]`) and the indices occur in the text weakly
increasing, i.e. in bind order.  For update, every index still
addresses exactly one entry, but the text shows the SET tokens (bound
after the WHERE values) first — each group internally in bind order —
so the overall text order is not bind order.  All identifiers are
assumed free of `$`. -/
theorem compiled_placeholder_bind_order (table id : String)
    (w : Option (List Predicate)) (ws : List Predicate) (spec : SearchSpec)
    (record : Record) (u : Record)
    (htab : clean table = true) (hw : cleanWhere w = true)
    (hws : cleanPreds ws = true) (hspec : cleanSpec spec = true)
    (hrec : cleanRecord record = true) (hu : cleanRecord u = true) :
    PhOrdered (findOneQuery table w) ∧
    PhOrdered (findByIdQuery table id) ∧
    PhOrdered (searchQuery table spec) ∧
    PhOrdered (countQuery table ws) ∧
    PhOrdered (saveQuery table record) ∧
    PhOrdered (deleteQuery table w) ∧
    (scanPH (updateQuery table w u).1 =
        List.range' ((boundValuesList (w.getD [])).length + 1)
          (sortEntries u).length ++
        ((applyPredicates (w.getD []) []).1.map scanPH).flatten ∧
      Stair (((applyPredicates (w.getD []) []).1.map scanPH).flatten) 0
        (boundValuesList (w.getD [])).length ∧
      (updateQuery table w u).2.length =
        (boundValuesList (w.getD [])).length + (sortEntries u).length ∧
      ∀ i ∈ scanPH (updateQuery table w u).1,
        1 ≤ i ∧ i ≤ (updateQuery table w u).2.length) := by
  have hFstair := applyPredicates_stair (w.getD []) [] hw
  simp only [List.length_nil, Nat.zero_add] at hFstair
  obtain ⟨hscan, hsnd⟩ := updateQuery_scan table w u htab hu
  have hulen : (updateQuery table w u).2.length =
      (boundValuesList (w.getD [])).length + (sortEntries u).length := by
    rw [hsnd]
    simp
  refine ⟨phOrdered_of_stair (findOneQuery_stair table w htab hw),
    phOrdered_of_stair (findOneQuery_stair table
      (some [Predicate.eq "id" (Value.str id)]) htab rfl),
    phOrdered_of_stair (searchQuery_stair table spec htab hspec),
    phOrdered_of_stair (countQuery_stair table ws htab hws),
    ?_,
    phOrdered_of_stair (deleteQuery_stair table w htab hw),
    hscan, hFstair, hulen, ?_⟩
  · apply phOrdered_of_stair
    rw [saveQuery_scan table record htab hrec]
    have hslen : (saveQuery table record).2.length = record.length := by
      simp [saveQuery, bindAll_spec]
    rw [hslen]
    simpa using stair_range' 0 record.length
  · intro i hi
    rw [hscan] at hi
    rw [hulen]
    rcases List.mem_append.mp hi with h | h
    · rw [List.mem_range'_1] at h
      omega
    · have := hFstair.2 i h
      omega

/-- Witness for the amended C1 at concrete inputs for all seven
compilers, with the update having both a non-empty update map and a
non-empty where list. -/
theorem compiled_placeholder_bind_order_witness :
    clean "t" = true ∧
    (PhOrdered (findOneQuery "t" (some [Predicate.eq "id" (Value.str "1")])) ∧
      PhOrdered (findByIdQuery "t" "7") ∧
      PhOrdered (searchQuery "t"
        { whereList := some [Predicate.textSearch ["a", "b"] "x"],
          order := some [⟨"o", Direction.asc⟩],
          offset := some 0, limit := some 5 }) ∧
      PhOrdered (countQuery "t" [Predicate.eq "a" Value.null]) ∧
      PhOrdered (saveQuery "t"
        [("id", Value.str "1"), ("name", Value.str "A")]) ∧
      PhOrdered (deleteQuery "t"
        (some [Predicate.eq "id" (Value.str "1")])) ∧
      (scanPH (updateQuery "t" (some [Predicate.eq "id" (Value.str "1")])
          [("name", Value.str "x"), ("age", Value.int 3)]).1 =
          List.range'
            ((boundValuesList
              ((some [Predicate.eq "id" (Value.str "1")]).getD [])).length +
                1)
            (sortEntries
              [("name", Value.str "x"), ("age", Value.int 3)]).length ++
          ((applyPredicates
            ((some [Predicate.eq "id" (Value.str "1")]).getD [])
            []).1.map scanPH).flatten ∧
        Stair (((applyPredicates
            ((some [Predicate.eq "id" (Value.str "1")]).getD [])
            []).1.map scanPH).flatten) 0
          (boundValuesList
            ((some [Predicate.eq "id" (Value.str "1")]).getD [])).length ∧
        (updateQuery "t" (some [Predicate.eq "id" (Value.str "1")])
            [("name", Value.str "x"), ("age", Value.int 3)]).2.length =
          (boundValuesList
            ((some [Predicate.eq "id" (Value.str "1")]).getD [])).length +
            (sortEntries
              [("name", Value.str "x"), ("age", Value.int 3)]).length ∧
        ∀ i ∈ scanPH (updateQuery "t"
            (some [Predicate.eq "id" (Value.str "1")])
            [("name", Value.str "x"), ("age", Value.int 3)]).1,
          1 ≤ i ∧ i ≤ (updateQuery "t"
            (some [Predicate.eq "id" (Value.str "1")])
            [("name", Value.str "x"), ("age", Value.int 3)]).2.length)) :=
  ⟨by decide,
   compiled_placeholder_bind_order "t" "7"
     (some [Predicate.eq "id" (Value.str "1")])
     [Predicate.eq "a" Value.null]
     { whereList := some [Predicate.textSearch ["a", "b"] "x"],
       order := some [⟨"o", Direction.asc⟩],
       offset := some 0, limit := some 5 }
     [("id", Value.str "1"), ("name", Value.str "A")]
     [("name", Value.str "x"), ("age", Value.int 3)]
     (by decide) (by decide) (by decide) (by decide) (by decide) (by decide)⟩

/-- C8 (counterexample): `TextSearch` with an empty column list appends
one value (`%x%`) to the binder, yet its fragment (the JS `undefined`)
contains no placeholder — so the claimed count equality fails for this
predicate. -/
theorem fragment_placeholder_count_counterexample :
    ((scanPH (applyPredicate (Predicate.textSearch [] "x") []).1).dedup).length
        = 0 ∧
    (applyPredicate (Predicate.textSearch [] "x") []).2.length = 1 ∧
    ¬ (((scanPH (applyPredicate (Predicate.textSearch [] "x")
          []).1).dedup).length =
        (applyPredicate (Predicate.textSearch [] "x") []).2.length -
          ([] : List Value).length) := by
  refine ⟨by decide, by decide, ?_⟩
  intro h
  have h1 : ((scanPH (applyPredicate (Predicate.textSearch [] "x")
      []).1).dedup).length = 0 := by decide
  have h2 : (applyPredicate (Predicate.textSearch [] "x") []).2.length = 1 :=
    by decide
  rw [h1, h2] at h
  simp at h

/-- C8 (amended): for every predicate with clean columns other than a
`textSearch` with an empty column list, the number of distinct
placeholder indices in the produced fragment equals the number of
values the compilation appended to the binder (null-`Equals` binds zero
and shows zero; the forced `LIMIT 1` of findOne/findById is a literal
and never contributes). -/
theorem fragment_placeholder_count (p : Predicate) (ps : List Value)
    (hp : cleanPred p = true) (hne : notEmptyTextSearch p = true) :
    ((scanPH (applyPredicate p ps).1).dedup).length =
      (applyPredicate p ps).2.length - ps.length := by
  rw [applyPredicate_snd, applyPredicate_scan p ps hp]
  have hlen : (ps ++ boundValues p).length - ps.length =
      (boundValues p).length := by
    simp
  rw [hlen]
  rcases p with ⟨col, v⟩ | ⟨col, vs⟩ | ⟨col, vs⟩ | ⟨col, v⟩ | ⟨cols, v⟩
  · by_cases h : v = Value.null
    · simp [h, boundValues]
    · simp [h, boundValues]
  · rw [(List.nodup_range' _ _).dedup]
    simp [boundValues]
  · rw [(List.nodup_range' _ _).dedup]
    simp [boundValues]
  · simp [boundValues]
  · rcases cols with _ | ⟨c1, cols'⟩
    · simp [notEmptyTextSearch] at hne
    · rw [dedup_replicate_pos _ _ (by simp)]
      simp [boundValues]

/-- Witness for the amended C8 at `TextSearch(["a","b"], "x")` on an
empty binder: one distinct placeholder, one appended value. -/
theorem fragment_placeholder_count_witness :
    cleanPred (Predicate.textSearch ["a", "b"] "x") = true ∧
    ((scanPH (applyPredicate (Predicate.textSearch ["a", "b"] "x")
        []).1).dedup).length =
      (applyPredicate (Predicate.textSearch ["a", "b"] "x") []).2.length -
        ([] : List Value).length :=
  ⟨by decide,
   fragment_placeholder_count (Predicate.textSearch ["a", "b"] "x") []
     (by decide) (by decide)⟩

end DB
